import Mathlib

/-!
Shallow embedding of the EME (encrypted-media-extensions) controller from
src/controller/eme-controller.js, together with theorems settling the
specification claims about it.

Host objects (MediaKeys, MediaKeySystemAccess, sessions) are modelled as
plain handles; asynchronous promise resolutions are modelled as explicit
events fed to a step function over the controller state; a JavaScript
exception escaping a function is modelled as an explicit `thrown`/Bool
component of that function's result.
-/

/-- Host handle for a created decryption-module instance (a MediaKeys object). -/
abbrev MediaKeys := Nat

/-- Host handle granted by a successful requestMediaKeySystemAccess call. -/
abbrev MediaKeySystemAccess := Nat

/-- Session object returned by the host call mediaKeys.createSession(); the
host call is modelled as a deterministic constructor recording the MediaKeys
instance it was created from. -/
structure MediaKeySession where
  source : MediaKeys
  deriving DecidableEq, Repr

/-- Model of the host call mediaKeys.createSession(). -/
def createSession (mediaKeys : MediaKeys) : MediaKeySession :=
  { source := mediaKeys }

/-- One element of a videoCapabilities array: an object with a contentType string. -/
structure MediaKeyCapability where
  contentType : String
  deriving DecidableEq, Repr

/-- MediaKeySystemConfiguration as the controller builds it: the source object
carries a videoCapabilities array and never sets an audioCapabilities property
(an absent property is `none`); the other documented fields are commented out
in the source and hence absent. -/
structure MediaKeySystemConfiguration where
  videoCapabilities : List MediaKeyCapability
  audioCapabilities : Option (List MediaKeyCapability)
  deriving DecidableEq, Repr

/-- Error taxonomy for the controller, naming the source's throw and
console.error sites. -/
inductive EmeError where
  | unsupportedKeySystem (keySystem : String)
  | keySystemAccessDenied
  | noModuleAvailable
  deriving DecidableEq, Repr

/-- The KeySystems enum: the one registered key-system identifier. -/
def KeySystems.WIDEVINE : String := "com.widevine.alpha"

/-- createWidevineMediaKeySystemConfigurations: builds the single baseConfig
whose videoCapabilities starts empty and receives one pushed capability per
requested video codec (videoCodecs.forEach), with contentType
video/mp4; codecs="codec".  audioCodecs and drmOptions are parameters of the
source function that its body never reads. -/
def createWidevineMediaKeySystemConfigurations
    (audioCodecs : List String) (videoCodecs : List String)
    (drmOptions : Option Unit) : List MediaKeySystemConfiguration :=
  let baseConfig : MediaKeySystemConfiguration :=
    { videoCapabilities := [], audioCapabilities := none }
  let filledConfig := videoCodecs.foldl
    (fun cfg codec =>
      { cfg with videoCapabilities :=
          cfg.videoCapabilities ++
            [{ contentType := "video/mp4; codecs=\"" ++ codec ++ "\"" }] })
    baseConfig
  [filledConfig]

/-- getSupportedMediaKeySystemConfigurations: switch on the key-system
identifier.  WIDEVINE returns the widevine builder's result; every other
identifier throws (modelled as Except.error).  The documented return type also
admits null (`none`), which no registered builder actually produces. -/
def getSupportedMediaKeySystemConfigurations
    (keySystem : String) (audioCodecs videoCodecs : List String) :
    Except EmeError (Option (List MediaKeySystemConfiguration)) :=
  if keySystem = KeySystems.WIDEVINE then
    Except.ok (some (createWidevineMediaKeySystemConfigurations audioCodecs videoCodecs none))
  else
    Except.error (EmeError.unsupportedKeySystem keySystem)

/-- Entry pushed onto this._mediaKeysList: mediaKeys and mediaKeysSession
start null (`none`), mediaKeySystemAccess holds the obtained access handle. -/
structure MediaKeysListItem where
  mediaKeys : Option MediaKeys
  mediaKeysSession : Option MediaKeySession
  mediaKeySystemAccess : MediaKeySystemAccess
  deriving DecidableEq, Repr

/-- Arguments of the asynchronous window.navigator.requestMediaKeySystemAccess
host call issued by _attemptKeySystemAccess. -/
structure AccessRequest where
  keySystem : String
  configs : List MediaKeySystemConfiguration
  deriving DecidableEq, Repr

/-- Result of the synchronous part of _attemptKeySystemAccess: the exception
that escaped to the caller (if any), the media-keys list as the call left it,
and the access request handed to the host (if any). -/
structure AttemptOutcome where
  thrown : Option EmeError
  store : List MediaKeysListItem
  request : Option AccessRequest
  deriving DecidableEq, Repr

/-- Synchronous part of _attemptKeySystemAccess: builds configurations via the
catalog (a throw there escapes uncaught, leaving the list untouched), returns
early with a warning if the builder produced null, and otherwise issues the
asynchronous access request; the list itself is only ever modified later, by
the request's success continuation. -/
def _attemptKeySystemAccess (store : List MediaKeysListItem)
    (keySystem : String) (audioCodecs videoCodecs : List String) : AttemptOutcome :=
  match getSupportedMediaKeySystemConfigurations keySystem audioCodecs videoCodecs with
  | Except.error e => { thrown := some e, store := store, request := none }
  | Except.ok none => { thrown := none, store := store, request := none }
  | Except.ok (some mediaKeySystemConfigs) =>
      { thrown := none, store := store,
        request := some { keySystem := keySystem, configs := mediaKeySystemConfigs } }

/-- _onMediaKeysCreated: forEach over the list, creating a session for every
item whose mediaKeysSession is null.  An item whose mediaKeys is also null
makes mediaKeys.createSession() throw a TypeError, which aborts the loop;
mutations already performed persist and the remaining items are untouched.
The Bool records whether the loop threw (the throw is caught and logged by the
promise chain's catch handler upstream). -/
def _onMediaKeysCreated : List MediaKeysListItem → List MediaKeysListItem × Bool
  | [] => ([], false)
  | item :: rest =>
      match item.mediaKeysSession with
      | some _ =>
          let r := _onMediaKeysCreated rest
          (item :: r.1, r.2)
      | none =>
          match item.mediaKeys with
          | none => (item :: rest, true)
          | some mk =>
          let r := _onMediaKeysCreated rest
          ({ item with mediaKeysSession := some (createSession mk) } :: r.1, r.2)

/-- Per-entry effect of a completed session pass: a session-less item with a
module gets a session created from that module, every other item is unchanged. -/
def withSessionEnsured (item : MediaKeysListItem) : MediaKeysListItem :=
  match item.mediaKeysSession, item.mediaKeys with
  | none, some mk => { item with mediaKeysSession := some (createSession mk) }
  | _, _ => item

/-- One quality level of the parsed manifest: its audio and video codec strings. -/
structure Level where
  audioCodec : String
  videoCodec : String
  deriving DecidableEq, Repr

/-- State of the EMEController: the source's fields (_mediaKeysList, _media,
_hasSetMediaKeys, _isMediaEncrypted) plus observation logs recording the
outbound host calls and reported errors, and the key-systems of outstanding
access requests. -/
structure ControllerState where
  _mediaKeysList : List MediaKeysListItem
  _media : Option Nat
  _hasSetMediaKeys : Bool
  _isMediaEncrypted : Bool
  pendingAccess : List String
  pendingCreate : List MediaKeySystemAccess
  appendLog : List String
  attachLog : List (Option MediaKeys)
  errorLog : List EmeError
  deriving DecidableEq, Repr

/-- Constructor state: empty list, no media, both flags false. -/
def initialState : ControllerState :=
  { _mediaKeysList := [], _media := none, _hasSetMediaKeys := false,
    _isMediaEncrypted := false, pendingAccess := [], pendingCreate := [],
    appendLog := [], attachLog := [], errorLog := [] }

/-- _attemptSetMediaKeys: if media keys were not set yet, read the FIRST list
entry (index 0).  If there is none, log the fatal no-access error and return;
otherwise call media.setMediaKeys with that entry's mediaKeys value (present
or not) and set the flag. -/
def _attemptSetMediaKeys (st : ControllerState) : ControllerState :=
  if st._hasSetMediaKeys then st
  else
    match st._mediaKeysList with
    | [] => { st with errorLog := st.errorLog ++ [EmeError.noModuleAvailable] }
    | keysListItem :: _ =>
        { st with attachLog := st.attachLog ++ [keysListItem.mediaKeys],
                  _hasSetMediaKeys := true }

/-- _onMediaEncrypted: record that media is encrypted, then attempt to set
media keys. -/
def _onMediaEncrypted (st : ControllerState) : ControllerState :=
  _attemptSetMediaKeys { st with _isMediaEncrypted := true }

/-- _onMediaKeySystemAccessObtained: push a fresh list item (mediaKeys and
session null, access recorded) and ask the host to create media keys from the
access handle (tracked in pendingCreate); appendLog records the key-system the
entry was appended for. -/
def _onMediaKeySystemAccessObtained (st : ControllerState)
    (keySystem : String) (access : MediaKeySystemAccess) : ControllerState :=
  { st with
      _mediaKeysList := st._mediaKeysList ++
        [{ mediaKeys := none, mediaKeysSession := none, mediaKeySystemAccess := access }],
      pendingCreate := st.pendingCreate ++ [access],
      appendLog := st.appendLog ++ [keySystem] }

/-- Resolution of a createMediaKeys promise for the item at the given index:
store the created MediaKeys on that item (the continuation closes over the
specific item it was issued for). -/
def setMediaKeysAt : List MediaKeysListItem → Nat → MediaKeys → List MediaKeysListItem
  | [], _, _ => []
  | item :: rest, 0, mk => { item with mediaKeys := some mk } :: rest
  | item :: rest, Nat.succ n, mk => item :: setMediaKeysAt rest n mk

/-- External happenings delivered to the controller during one playback
attachment: inbound events and resolutions of the asynchronous host calls. -/
inductive EmeEvent where
  | mediaAttached (media : Nat)
  | encrypted
  | manifestParsed (levels : List Level)
  | accessObtained (access : MediaKeySystemAccess)
  | accessDenied
  | mediaKeysCreated (index : Nat) (keys : MediaKeys)
  deriving DecidableEq, Repr

/-- Step function of the controller: how each event or promise resolution
transforms the state.  The encrypted listener only exists once media is
attached; a mediaKeysCreated resolution runs the session pass, whose possible
TypeError is caught and logged by the promise chain's catch handler. -/
def step (st : ControllerState) : EmeEvent → ControllerState
  | EmeEvent.mediaAttached media => { st with _media := some media }
  | EmeEvent.encrypted =>
      if st._media.isSome then _onMediaEncrypted st else st
  | EmeEvent.manifestParsed levels =>
      let audioCodecs := levels.map Level.audioCodec
      let videoCodecs := levels.map Level.videoCodec
      let outcome := _attemptKeySystemAccess st._mediaKeysList
        KeySystems.WIDEVINE audioCodecs videoCodecs
      match outcome.request with
      | some req => { st with pendingAccess := st.pendingAccess ++ [req.keySystem] }
      | none => st
  | EmeEvent.accessObtained access =>
      match st.pendingAccess with
      | [] => st
      | keySystem :: rest =>
          _onMediaKeySystemAccessObtained { st with pendingAccess := rest } keySystem access
  | EmeEvent.accessDenied =>
      match st.pendingAccess with
      | [] => st
      | _ :: rest =>
          { st with pendingAccess := rest,
                    errorLog := st.errorLog ++ [EmeError.keySystemAccessDenied] }
  | EmeEvent.mediaKeysCreated index keys =>
      let l := setMediaKeysAt st._mediaKeysList index keys
      { st with _mediaKeysList := (_onMediaKeysCreated l).1 }

/-- Run of the controller over a sequence of delivered events. -/
def runEvents (st : ControllerState) (events : List EmeEvent) : ControllerState :=
  events.foldl step st

/-- Recognizer for successful access-resolution events. -/
def isAccessObtained : EmeEvent → Bool
  | EmeEvent.accessObtained _ => true
  | _ => false

/-! ## Helper lemmas -/

/-- Folding the capability-push over a codec list appends one capability per
codec occurrence, in order, to the accumulated configuration. -/
theorem widevineFoldl (codecs : List String) (cfg : MediaKeySystemConfiguration) :
    codecs.foldl
      (fun cfg codec =>
        { cfg with videoCapabilities :=
            cfg.videoCapabilities ++
              [{ contentType := "video/mp4; codecs=\"" ++ codec ++ "\"" }] })
      cfg
    = { cfg with videoCapabilities :=
          cfg.videoCapabilities ++
            codecs.map (fun codec =>
              { contentType := "video/mp4; codecs=\"" ++ codec ++ "\"" }) } := by
  induction codecs generalizing cfg with
  | nil => simp
  | cons c cs ih =>
      simp only [List.foldl_cons, List.map_cons]
      rw [ih]
      simp [List.append_assoc]

/-- The widevine builder returns the singleton list of the filled base
configuration. -/
theorem createWidevine_eq (audioCodecs videoCodecs : List String) (drmOptions : Option Unit) :
    createWidevineMediaKeySystemConfigurations audioCodecs videoCodecs drmOptions
      = [{ videoCapabilities :=
             videoCodecs.map (fun codec =>
               { contentType := "video/mp4; codecs=\"" ++ codec ++ "\"" }),
           audioCapabilities := none }] := by
  simp only [createWidevineMediaKeySystemConfigurations]
  rw [widevineFoldl]
  simp

/-! ## C3 — catalog build shape -/

/-- C3 (amended): for the supported key-system and every requested codec
lists, the builder returns a candidate sequence of length one (hence
non-empty) whose single configuration declares no audio capability and
contains exactly one video capability per ELEMENT of the requested video
codec list (duplicates included), in request order, each with content type
video/mp4; codecs="codec". -/
theorem createWidevine_candidates (audioCodecs videoCodecs : List String)
    (drmOptions : Option Unit) :
    (createWidevineMediaKeySystemConfigurations audioCodecs videoCodecs drmOptions).length = 1 ∧
    ∀ cfg ∈ createWidevineMediaKeySystemConfigurations audioCodecs videoCodecs drmOptions,
      cfg.audioCapabilities = none ∧
      cfg.videoCapabilities
        = videoCodecs.map (fun codec =>
            { contentType := "video/mp4; codecs=\"" ++ codec ++ "\"" }) := by
  rw [createWidevine_eq]
  refine ⟨rfl, ?_⟩
  intro cfg hcfg
  rw [List.mem_singleton] at hcfg
  subst hcfg
  exact ⟨rfl, rfl⟩

/-- C3 witness: the claim's concrete scenario.  Requesting video codecs
["avc1.4d401f"] yields one candidate whose single video capability is
video/mp4; codecs="avc1.4d401f" and no audio capability. -/
theorem createWidevine_candidates_witness :
    (createWidevineMediaKeySystemConfigurations [] ["avc1.4d401f"] none).length = 1 ∧
    ((createWidevineMediaKeySystemConfigurations [] ["avc1.4d401f"] none).headD
        { videoCapabilities := [], audioCapabilities := none }).audioCapabilities = none ∧
    ((createWidevineMediaKeySystemConfigurations [] ["avc1.4d401f"] none).headD
        { videoCapabilities := [], audioCapabilities := none }).videoCapabilities
      = [{ contentType := "video/mp4; codecs=\"avc1.4d401f\"" }] := by
  have h := createWidevine_candidates [] ["avc1.4d401f"] none
  have h2 := h.2
    ((createWidevineMediaKeySystemConfigurations [] ["avc1.4d401f"] none).headD
      { videoCapabilities := [], audioCapabilities := none })
    (by decide)
  exact ⟨h.1, h2.1, h2.2⟩

/-- C3 counterexample: the claim demands exactly one video capability per
DISTINCT requested video codec, but for the duplicate request
["avc1.4d401f", "avc1.4d401f"] (one distinct codec) the built configuration
carries two video capabilities: the builder pushes one capability per
occurrence, so the capability count differs from the distinct-codec count. -/
theorem createWidevine_distinct_cex :
    ((createWidevineMediaKeySystemConfigurations [] ["avc1.4d401f", "avc1.4d401f"] none).headD
        { videoCapabilities := [], audioCapabilities := none }).videoCapabilities.length = 2 ∧
    (["avc1.4d401f", "avc1.4d401f"] : List String).dedup.length = 1 ∧
    ((createWidevineMediaKeySystemConfigurations [] ["avc1.4d401f", "avc1.4d401f"] none).headD
        { videoCapabilities := [], audioCapabilities := none }).videoCapabilities.length
      ≠ (["avc1.4d401f", "avc1.4d401f"] : List String).dedup.length := by
  refine ⟨rfl, by decide, by decide⟩

/-! ## C10 — audio-codec independence -/

/-- C10: the candidate configurations built for the supported key-system do
not depend on the requested audio codec list (nor on the unused drmOptions):
any two audio lists give identical builder output, identical catalog output,
and an identical access request submitted to the host probe. -/
theorem widevine_audio_independent (audio1 audio2 video : List String)
    (d1 d2 : Option Unit) (store : List MediaKeysListItem) :
    createWidevineMediaKeySystemConfigurations audio1 video d1
      = createWidevineMediaKeySystemConfigurations audio2 video d2 ∧
    getSupportedMediaKeySystemConfigurations KeySystems.WIDEVINE audio1 video
      = getSupportedMediaKeySystemConfigurations KeySystems.WIDEVINE audio2 video ∧
    (_attemptKeySystemAccess store KeySystems.WIDEVINE audio1 video).request
      = (_attemptKeySystemAccess store KeySystems.WIDEVINE audio2 video).request :=
  ⟨rfl, rfl, rfl⟩

/-! ## C5 / C8 — negotiation step boundary -/

/-- C5 (amended): the synchronous part of _attemptKeySystemAccess never
modifies the media-keys list, and it completes without a thrown exception (and
issues an access request) exactly when the key-system is the registered one;
for an unregistered key-system the catalog's throw propagates to the caller —
there is no log-and-return-normally path for a thrown building failure, and
the builder never yields the null result that the early-return path checks
for. -/
theorem attemptKeySystemAccess_boundary (store : List MediaKeysListItem)
    (keySystem : String) (audioCodecs videoCodecs : List String) :
    (_attemptKeySystemAccess store keySystem audioCodecs videoCodecs).store = store ∧
    (_attemptKeySystemAccess store keySystem audioCodecs videoCodecs).thrown.isNone
      = (keySystem == KeySystems.WIDEVINE) ∧
    (_attemptKeySystemAccess store keySystem audioCodecs videoCodecs).request.isSome
      = (keySystem == KeySystems.WIDEVINE) := by
  by_cases h : keySystem = KeySystems.WIDEVINE <;>
    simp [_attemptKeySystemAccess, getSupportedMediaKeySystemConfigurations, h]

/-- C5 counterexample: for the unregistered key-system "com.example.drm" the
candidate building fails, yet _attemptKeySystemAccess does not return
normally: the exception escapes to its caller (thrown is set), contradicting
the claim that a building failure is logged and handled inside the call. -/
theorem attemptKeySystemAccess_throws_cex :
    getSupportedMediaKeySystemConfigurations "com.example.drm" [] []
      = Except.error (EmeError.unsupportedKeySystem "com.example.drm") ∧
    (_attemptKeySystemAccess [] "com.example.drm" [] []).thrown
      = some (EmeError.unsupportedKeySystem "com.example.drm") := by
  exact ⟨rfl, rfl⟩

/-- C8: for a key-system identifier not registered in the catalog, the
negotiation attempt fails with the UnsupportedKeySystem error, the media-keys
list is returned unchanged, and no access request is issued (so no entry can
ever be appended for it). -/
theorem unsupported_keySystem_store_unchanged (store : List MediaKeysListItem)
    (keySystem : String) (audioCodecs videoCodecs : List String)
    (h : keySystem ≠ KeySystems.WIDEVINE) :
    _attemptKeySystemAccess store keySystem audioCodecs videoCodecs
      = { thrown := some (EmeError.unsupportedKeySystem keySystem),
          store := store, request := none } := by
  simp [_attemptKeySystemAccess, getSupportedMediaKeySystemConfigurations, h]

/-- C8 witness: the unregistered identifier "com.example.playready" fails with
UnsupportedKeySystem and leaves a concrete one-entry list unchanged. -/
theorem unsupported_keySystem_store_unchanged_witness :
    _attemptKeySystemAccess
        [{ mediaKeys := none, mediaKeysSession := none, mediaKeySystemAccess := 7 }]
        "com.example.playready" ["mp4a.40.2"] ["avc1.4d401f"]
      = { thrown := some (EmeError.unsupportedKeySystem "com.example.playready"),
          store := [{ mediaKeys := none, mediaKeysSession := none, mediaKeySystemAccess := 7 }],
          request := none } :=
  unsupported_keySystem_store_unchanged
    [{ mediaKeys := none, mediaKeysSession := none, mediaKeySystemAccess := 7 }]
    "com.example.playready" ["mp4a.40.2"] ["avc1.4d401f"] (by decide)

/-! ## C7 — successful access appends exactly one fresh entry -/

/-- C7: after a successful capability-access request the handler appends
exactly one new entry — capabilityAccess set to the obtained handle, module
and session absent — leaves every pre-existing entry (and the binder flag and
attach log) unchanged, and requests module creation from that entry's access
handle. -/
theorem accessObtained_appends_one (st : ControllerState)
    (keySystem : String) (access : MediaKeySystemAccess) :
    (_onMediaKeySystemAccessObtained st keySystem access)._mediaKeysList
      = st._mediaKeysList ++
          [{ mediaKeys := none, mediaKeysSession := none, mediaKeySystemAccess := access }] ∧
    (_onMediaKeySystemAccessObtained st keySystem access)._mediaKeysList.length
      = st._mediaKeysList.length + 1 ∧
    (_onMediaKeySystemAccessObtained st keySystem access).pendingCreate
      = st.pendingCreate ++ [access] ∧
    (_onMediaKeySystemAccessObtained st keySystem access)._hasSetMediaKeys
      = st._hasSetMediaKeys ∧
    (_onMediaKeySystemAccessObtained st keySystem access).attachLog = st.attachLog := by
  refine ⟨rfl, ?_, rfl, rfl, rfl⟩
  simp [_onMediaKeySystemAccessObtained]

/-! ## C6 / C9 — the session-creation pass -/

/-- C6 (amended): the session pass throws exactly when some entry has both
module and session absent; and whenever every session-less entry has its
module present, the pass completes without failure and creates a session for
exactly the session-less entries (from their modules), leaving every entry
that already has a session untouched. -/
theorem onMediaKeysCreated_spec (l : List MediaKeysListItem) :
    (_onMediaKeysCreated l).2
      = l.any (fun item => item.mediaKeysSession.isNone && item.mediaKeys.isNone) ∧
    ((∀ item ∈ l, item.mediaKeysSession = none → item.mediaKeys.isSome) →
      _onMediaKeysCreated l = (l.map withSessionEnsured, false)) := by
  induction l with
  | nil => exact ⟨rfl, fun _ => rfl⟩
  | cons item rest ih =>
      constructor
      · cases hs : item.mediaKeysSession with
        | some s => simp [_onMediaKeysCreated, hs, ih.1]
        | none =>
            cases hk : item.mediaKeys with
            | none => simp [_onMediaKeysCreated, hs, hk]
            | some mk => simp [_onMediaKeysCreated, hs, hk, ih.1]
      · intro hall
        cases hs : item.mediaKeysSession with
        | some s =>
            have hrest := ih.2 (fun it hit => hall it (List.mem_cons_of_mem _ hit))
            simp [_onMediaKeysCreated, hs, hrest, withSessionEnsured]
        | none =>
            cases hk : item.mediaKeys with
            | none =>
                have := hall item (List.mem_cons_self _ _) hs
                rw [hk] at this
                simp at this
            | some mk =>
                have hrest := ih.2 (fun it hit => hall it (List.mem_cons_of_mem _ hit))
                simp [_onMediaKeysCreated, hs, hk, hrest, withSessionEnsured]

/-- C6 witness: on a list with one session-less entry carrying a module and
one entry that already has a session, the pass succeeds, creates the one
missing session, and leaves the other entry untouched. -/
theorem onMediaKeysCreated_spec_witness :
    _onMediaKeysCreated
        [{ mediaKeys := some 3, mediaKeysSession := none, mediaKeySystemAccess := 0 },
         { mediaKeys := some 4, mediaKeysSession := some (createSession 4),
           mediaKeySystemAccess := 1 }]
      = ([{ mediaKeys := some 3, mediaKeysSession := none, mediaKeySystemAccess := 0 },
          { mediaKeys := some 4, mediaKeysSession := some (createSession 4),
            mediaKeySystemAccess := 1 }].map withSessionEnsured, false) :=
  (onMediaKeysCreated_spec
      [{ mediaKeys := some 3, mediaKeysSession := none, mediaKeySystemAccess := 0 },
       { mediaKeys := some 4, mediaKeysSession := some (createSession 4),
         mediaKeySystemAccess := 1 }]).2 (by decide)

/-- C6 counterexample: an entry with module and session both absent is not
"left untouched without failure" — the pass throws on it (the Bool is true,
modelling the TypeError from calling createSession on a null module). -/
theorem onMediaKeysCreated_null_module_cex :
    _onMediaKeysCreated
        [{ mediaKeys := none, mediaKeysSession := none, mediaKeySystemAccess := 0 }]
      = ([{ mediaKeys := none, mediaKeysSession := none, mediaKeySystemAccess := 0 }], true) := by
  decide

/-- C9 (amended): running the session pass on its own output changes nothing:
the second run returns the very same store and the same thrown-or-not outcome
as the first (it creates no new sessions; it throws again exactly when a
session-less module-less entry is still present). -/
theorem onMediaKeysCreated_idempotent (l : List MediaKeysListItem) :
    _onMediaKeysCreated (_onMediaKeysCreated l).1 = _onMediaKeysCreated l := by
  induction l with
  | nil => rfl
  | cons item rest ih =>
      cases hs : item.mediaKeysSession with
      | some s =>
          simp only [_onMediaKeysCreated, hs]
          rw [show (_onMediaKeysCreated rest).1 = ((_onMediaKeysCreated rest).1, (_onMediaKeysCreated rest).2).1 from rfl]
          simp [_onMediaKeysCreated, hs, ih]
      | none =>
          cases hk : item.mediaKeys with
          | none => simp [_onMediaKeysCreated, hs, hk]
          | some mk => simp [_onMediaKeysCreated, hs, hk, ih]

/-- C9 counterexample: on a store whose only entry has module and session both
absent, the SECOND run of the session pass still raises an error (true =
thrown), contradicting the claim that the second run raises no errors for
every store state. -/
theorem onMediaKeysCreated_idempotent_cex :
    (_onMediaKeysCreated
        ((_onMediaKeysCreated
            [{ mediaKeys := none, mediaKeysSession := none, mediaKeySystemAccess := 0 }]).1)).2
      = true := by
  decide

/-! ## C1 — binder action on the encrypted notification -/

/-- C1 (amended): while media keys are not yet set, the binder reads the FIRST
store entry regardless of whether its module is present: if the store is
empty it reports the fatal error and stays unattached; otherwise it attaches
the first entry's module field (present or not) to the sink and sets the
binding flag. -/
theorem attemptSetMediaKeys_spec (st : ControllerState)
    (h : st._hasSetMediaKeys = false) :
    (st._mediaKeysList = [] →
       _attemptSetMediaKeys st
         = { st with errorLog := st.errorLog ++ [EmeError.noModuleAvailable] }) ∧
    (∀ item rest, st._mediaKeysList = item :: rest →
       _attemptSetMediaKeys st
         = { st with attachLog := st.attachLog ++ [item.mediaKeys],
                     _hasSetMediaKeys := true }) := by
  constructor
  · intro hnil
    simp [_attemptSetMediaKeys, h, hnil]
  · intro item rest hcons
    simp [_attemptSetMediaKeys, h, hcons]

/-- C1 witness: from the fresh state with one store entry whose module is
already present, the encrypted notification attaches that entry's module and
sets the flag. -/
theorem attemptSetMediaKeys_spec_witness :
    _attemptSetMediaKeys
        { initialState with
            _mediaKeysList :=
              [{ mediaKeys := some 5, mediaKeysSession := none, mediaKeySystemAccess := 0 }] }
      = { initialState with
            _mediaKeysList :=
              [{ mediaKeys := some 5, mediaKeysSession := none, mediaKeySystemAccess := 0 }],
            attachLog := [some 5], _hasSetMediaKeys := true } := by
  have h := (attemptSetMediaKeys_spec
      { initialState with
          _mediaKeysList :=
            [{ mediaKeys := some 5, mediaKeysSession := none, mediaKeySystemAccess := 0 }] }
      (by decide)).2
    { mediaKeys := some 5, mediaKeysSession := none, mediaKeySystemAccess := 0 } [] rfl
  simpa [initialState] using h

/-- C1 counterexample: with the store holding exactly one entry whose module
is ABSENT, the claim demands NoModuleAvailable, no attach call, and an
unchanged (false) binding flag; the code instead performs the attach host call
with the absent module value, sets the flag, and reports nothing. -/
theorem attemptSetMediaKeys_absent_module_cex :
    (_attemptSetMediaKeys
        { initialState with
            _mediaKeysList :=
              [{ mediaKeys := none, mediaKeysSession := none, mediaKeySystemAccess := 0 }],
            _isMediaEncrypted := true })._hasSetMediaKeys = true ∧
    (_attemptSetMediaKeys
        { initialState with
            _mediaKeysList :=
              [{ mediaKeys := none, mediaKeysSession := none, mediaKeySystemAccess := 0 }],
            _isMediaEncrypted := true }).attachLog = [none] ∧
    (_attemptSetMediaKeys
        { initialState with
            _mediaKeysList :=
              [{ mediaKeys := none, mediaKeysSession := none, mediaKeySystemAccess := 0 }],
            _isMediaEncrypted := true }).errorLog = [] := by
  refine ⟨by decide, by decide, by decide⟩

/-! ## C2 — at-most-once attachment over every event sequence -/

/-- Invariant tying the binding flag to the attach-call log: before the flag
is set no attach call has been made; once it is set exactly one has. -/
def FlagLogInv (st : ControllerState) : Prop :=
  (st._hasSetMediaKeys = false ∧ st.attachLog = []) ∨
  (st._hasSetMediaKeys = true ∧ st.attachLog.length = 1)

/-- Once the binding flag is true, no event resets it or adds attach calls. -/
theorem step_flag_true (st : ControllerState) (e : EmeEvent)
    (h : st._hasSetMediaKeys = true) :
    (step st e)._hasSetMediaKeys = true ∧ (step st e).attachLog = st.attachLog := by
  cases e with
  | mediaAttached media => simp [step, h]
  | encrypted =>
      by_cases hm : st._media.isSome <;>
        simp [step, hm, _onMediaEncrypted, _attemptSetMediaKeys, h]
  | manifestParsed levels =>
      simp only [step]
      split <;> simp [h]
  | accessObtained access =>
      simp only [step]
      split <;> simp [_onMediaKeySystemAccessObtained, h]
  | accessDenied =>
      simp only [step]
      split <;> simp [h]
  | mediaKeysCreated index keys => simp [step, h]

/-- Every event preserves the flag/attach-log invariant. -/
theorem step_FlagLogInv (st : ControllerState) (e : EmeEvent)
    (h : FlagLogInv st) : FlagLogInv (step st e) := by
  rcases h with ⟨hf, hl⟩ | ⟨hf, hl⟩
  · cases e with
    | mediaAttached media => exact Or.inl ⟨by simp [step, hf], by simp [step, hl]⟩
    | encrypted =>
        by_cases hm : st._media.isSome
        · cases hlist : st._mediaKeysList with
          | nil =>
              refine Or.inl ⟨?_, ?_⟩ <;>
                simp [step, hm, _onMediaEncrypted, _attemptSetMediaKeys, hf, hl, hlist]
          | cons item rest =>
              refine Or.inr ⟨?_, ?_⟩ <;>
                simp [step, hm, _onMediaEncrypted, _attemptSetMediaKeys, hf, hl, hlist]
        · exact Or.inl ⟨by simp [step, hm, hf], by simp [step, hm, hl]⟩
    | manifestParsed levels =>
        refine Or.inl ⟨?_, ?_⟩ <;> (simp only [step]; split <;> simp [hf, hl])
    | accessObtained access =>
        refine Or.inl ⟨?_, ?_⟩ <;>
          (simp only [step]; split <;> simp [_onMediaKeySystemAccessObtained, hf, hl])
    | accessDenied =>
        refine Or.inl ⟨?_, ?_⟩ <;> (simp only [step]; split <;> simp [hf, hl])
    | mediaKeysCreated index keys =>
        exact Or.inl ⟨by simp [step, hf], by simp [step, hl]⟩
  · have := step_flag_true st e hf
    exact Or.inr ⟨this.1, by rw [this.2]; exact hl⟩

/-- The flag/attach-log invariant is preserved by whole runs. -/
theorem runEvents_FlagLogInv (events : List EmeEvent) :
    ∀ st : ControllerState, FlagLogInv st → FlagLogInv (runEvents st events) := by
  induction events with
  | nil => exact fun st h => h
  | cons e rest ih =>
      intro st h
      exact ih (step st e) (step_FlagLogInv st e h)

/-- Once the flag is true, whole runs keep it true and add no attach calls. -/
theorem runEvents_flag_true (events : List EmeEvent) :
    ∀ st : ControllerState, st._hasSetMediaKeys = true →
      (runEvents st events)._hasSetMediaKeys = true ∧
      (runEvents st events).attachLog = st.attachLog := by
  induction events with
  | nil => exact fun st h => ⟨h, rfl⟩
  | cons e rest ih =>
      intro st h
      have hs := step_flag_true st e h
      have hr := ih (step st e) hs.1
      exact ⟨hr.1, hr.2.trans hs.2⟩

/-- C2: over every sequence of events delivered from the fresh controller
state, the attach-to-sink call is made at most once; and once the binding
flag is true, any further events leave it true and make no further attach
call — even events that give store entries their modules. -/
theorem attach_at_most_once (events moreEvents : List EmeEvent) :
    (runEvents initialState events).attachLog.length ≤ 1 ∧
    ((runEvents initialState events)._hasSetMediaKeys = true →
      (runEvents initialState (events ++ moreEvents))._hasSetMediaKeys = true ∧
      (runEvents initialState (events ++ moreEvents)).attachLog
        = (runEvents initialState events).attachLog) := by
  constructor
  · have h0 : FlagLogInv initialState := Or.inl ⟨rfl, rfl⟩
    rcases runEvents_FlagLogInv events initialState h0 with ⟨_, hl⟩ | ⟨_, hl⟩
    · simp [hl]
    · simp [hl]
  · intro hflag
    have happ : runEvents initialState (events ++ moreEvents)
        = runEvents (runEvents initialState events) moreEvents := by
      simp [runEvents, List.foldl_append]
    rw [happ]
    exact runEvents_flag_true moreEvents (runEvents initialState events) hflag

/-- C2 witness: a run that attaches (manifest parsed, access obtained,
encrypted) has the flag set; delivering a module-creation resolution and a
second encrypted notification afterwards keeps the flag set and adds no
second attach call. -/
theorem attach_at_most_once_witness :
    (runEvents initialState
        [EmeEvent.mediaAttached 1,
         EmeEvent.manifestParsed [{ audioCodec := "mp4a.40.2", videoCodec := "avc1.4d401f" }],
         EmeEvent.accessObtained 0, EmeEvent.encrypted])._hasSetMediaKeys = true ∧
    (runEvents initialState
        ([EmeEvent.mediaAttached 1,
          EmeEvent.manifestParsed [{ audioCodec := "mp4a.40.2", videoCodec := "avc1.4d401f" }],
          EmeEvent.accessObtained 0, EmeEvent.encrypted] ++
         [EmeEvent.mediaKeysCreated 0 7, EmeEvent.encrypted]))._hasSetMediaKeys = true ∧
    (runEvents initialState
        ([EmeEvent.mediaAttached 1,
          EmeEvent.manifestParsed [{ audioCodec := "mp4a.40.2", videoCodec := "avc1.4d401f" }],
          EmeEvent.accessObtained 0, EmeEvent.encrypted] ++
         [EmeEvent.mediaKeysCreated 0 7, EmeEvent.encrypted])).attachLog
      = (runEvents initialState
          [EmeEvent.mediaAttached 1,
           EmeEvent.manifestParsed [{ audioCodec := "mp4a.40.2", videoCodec := "avc1.4d401f" }],
           EmeEvent.accessObtained 0, EmeEvent.encrypted]).attachLog := by
  have h := (attach_at_most_once
      [EmeEvent.mediaAttached 1,
       EmeEvent.manifestParsed [{ audioCodec := "mp4a.40.2", videoCodec := "avc1.4d401f" }],
       EmeEvent.accessObtained 0, EmeEvent.encrypted]
      [EmeEvent.mediaKeysCreated 0 7, EmeEvent.encrypted]).2 (by decide)
  exact ⟨by decide, h.1, h.2⟩

/-! ## C4 — entries appended to the store -/

/-- The binder touches neither the append log nor the pending access
requests. -/
theorem attemptSetMediaKeys_logs (st : ControllerState) :
    (_attemptSetMediaKeys st).appendLog = st.appendLog ∧
    (_attemptSetMediaKeys st).pendingAccess = st.pendingAccess := by
  unfold _attemptSetMediaKeys
  split
  · exact ⟨rfl, rfl⟩
  · split <;> exact ⟨rfl, rfl⟩

/-- A single event grows the append log by at most one, and only a successful
access resolution grows it. -/
theorem step_appendLog_le (st : ControllerState) (e : EmeEvent) :
    (step st e).appendLog.length
      ≤ st.appendLog.length + (if isAccessObtained e then 1 else 0) := by
  cases e with
  | mediaAttached media => simp [step, isAccessObtained]
  | encrypted =>
      by_cases hm : st._media.isSome
      · have h := attemptSetMediaKeys_logs { st with _isMediaEncrypted := true }
        simp [step, hm, _onMediaEncrypted, isAccessObtained, h.1]
      · simp [step, hm, isAccessObtained]
  | manifestParsed levels =>
      simp only [step, isAccessObtained]
      split <;> simp
  | accessObtained access =>
      simp only [step, isAccessObtained]
      split <;> simp [_onMediaKeySystemAccessObtained]
  | accessDenied =>
      simp only [step, isAccessObtained]
      split <;> simp
  | mediaKeysCreated index keys => simp [step, isAccessObtained]

/-- Both the pending access requests and the appended-entry log only ever name
the one registered key-system. -/
def WidevineOnly (st : ControllerState) : Prop :=
  (∀ ks ∈ st.pendingAccess, ks = KeySystems.WIDEVINE) ∧
  (∀ ks ∈ st.appendLog, ks = KeySystems.WIDEVINE)

/-- Every event preserves the Widevine-only property of the two logs. -/
theorem step_WidevineOnly (st : ControllerState) (e : EmeEvent)
    (h : WidevineOnly st) : WidevineOnly (step st e) := by
  obtain ⟨hp, ha⟩ := h
  cases e with
  | mediaAttached media => exact ⟨by simpa [step] using hp, by simpa [step] using ha⟩
  | encrypted =>
      by_cases hm : st._media.isSome
      · have h := attemptSetMediaKeys_logs { st with _isMediaEncrypted := true }
        constructor
        · intro ks hks
          apply hp
          have heq : (step st EmeEvent.encrypted).pendingAccess = st.pendingAccess := by
            simp [step, hm, _onMediaEncrypted, h.2]
          rwa [heq] at hks
        · intro ks hks
          apply ha
          have heq : (step st EmeEvent.encrypted).appendLog = st.appendLog := by
            simp [step, hm, _onMediaEncrypted, h.1]
          rwa [heq] at hks
      · exact ⟨by simpa [step, hm] using hp, by simpa [step, hm] using ha⟩
  | manifestParsed levels =>
      constructor <;> (simp only [step]; split)
      case _ req heq =>
        intro ks hks
        simp only [List.mem_append, List.mem_singleton] at hks
        rcases hks with hks | hks
        · exact hp ks hks
        · have hreq : req.keySystem = KeySystems.WIDEVINE := by
            simp [_attemptKeySystemAccess, getSupportedMediaKeySystemConfigurations] at heq
            rw [← heq]
          exact hks ▸ hreq
      · exact hp
      · exact ha
      · exact ha
  | accessObtained access =>
      constructor <;> (simp only [step]; split)
      · exact hp
      case _ keySystem rest heq =>
        intro ks hks
        simp only [_onMediaKeySystemAccessObtained] at hks
        exact hp ks (by rw [heq]; exact List.mem_cons_of_mem _ hks)
      · exact ha
      case _ keySystem rest heq =>
        intro ks hks
        simp only [_onMediaKeySystemAccessObtained, List.mem_append,
          List.mem_singleton] at hks
        rcases hks with hks | hks
        · exact ha ks hks
        · exact hks ▸ hp keySystem (by rw [heq]; exact List.mem_cons_self _ _)
  | accessDenied =>
      constructor <;> (simp only [step]; split)
      · exact hp
      case _ keySystem rest heq =>
        intro ks hks
        exact hp ks (by rw [heq]; exact List.mem_cons_of_mem _ hks)
      · exact ha
      · exact fun ks hks => ha ks hks
  | mediaKeysCreated index keys =>
      exact ⟨by simpa [step] using hp, by simpa [step] using ha⟩

/-- Runs from any Widevine-only state stay Widevine-only, and the append log
grows by at most the number of delivered successful-access events. -/
theorem runEvents_appendLog (events : List EmeEvent) :
    ∀ st : ControllerState,
      (runEvents st events).appendLog.length
        ≤ st.appendLog.length + events.countP isAccessObtained ∧
      (WidevineOnly st → WidevineOnly (runEvents st events)) := by
  induction events with
  | nil => exact fun st => ⟨Nat.le_refl _, fun h => h⟩
  | cons e rest ih =>
      intro st
      constructor
      · have h1 := (ih (step st e)).1
        have h2 := step_appendLog_le st e
        have hcount : (e :: rest).countP isAccessObtained
            = rest.countP isAccessObtained + (if isAccessObtained e then 1 else 0) := by
          simp [List.countP_cons]
        calc (runEvents (step st e) rest).appendLog.length
            ≤ (step st e).appendLog.length + rest.countP isAccessObtained := h1
          _ ≤ st.appendLog.length + (if isAccessObtained e then 1 else 0)
                + rest.countP isAccessObtained := by omega
          _ = st.appendLog.length + (e :: rest).countP isAccessObtained := by
                rw [hcount]; omega
      · intro h
        exact (ih (step st e)).2 (step_WidevineOnly st e h)

/-- C4 (amended): the store gains at most one entry per delivered successful
access resolution — entries are not deduplicated by key-system identifier, so
the per-distinct-key-system bound holds only while at most one successful
access occurs; every appended entry is for the one registered key-system. -/
theorem store_append_per_access (events : List EmeEvent) :
    (runEvents initialState events).appendLog.length ≤ events.countP isAccessObtained ∧
    ∀ ks ∈ (runEvents initialState events).appendLog, ks = KeySystems.WIDEVINE := by
  have h := runEvents_appendLog events initialState
  refine ⟨?_, (h.2 ⟨by simp [initialState], by simp [initialState]⟩).2⟩
  simpa [initialState] using h.1

/-- C4 witness: a run with one manifest-parsed event and one successful access
appends one entry, and that entry's key-system is the registered widevine
identifier. -/
theorem store_append_per_access_witness :
    (runEvents initialState
        [EmeEvent.manifestParsed [{ audioCodec := "mp4a.40.2", videoCodec := "avc1.4d401f" }],
         EmeEvent.accessObtained 0]).appendLog.length
      ≤ ([EmeEvent.manifestParsed [{ audioCodec := "mp4a.40.2", videoCodec := "avc1.4d401f" }],
          EmeEvent.accessObtained 0] : List EmeEvent).countP isAccessObtained ∧
    "com.widevine.alpha" = KeySystems.WIDEVINE :=
  ⟨(store_append_per_access
      [EmeEvent.manifestParsed [{ audioCodec := "mp4a.40.2", videoCodec := "avc1.4d401f" }],
       EmeEvent.accessObtained 0]).1,
   (store_append_per_access
      [EmeEvent.manifestParsed [{ audioCodec := "mp4a.40.2", videoCodec := "avc1.4d401f" }],
       EmeEvent.accessObtained 0]).2 "com.widevine.alpha" (by decide)⟩

/-- C4 counterexample: two manifest-parsed events each followed by a
successful access append TWO store entries, both for the same (widevine)
key-system identifier — the claimed at-most-one-entry-per-distinct-key-system
invariant fails. -/
theorem store_duplicate_keySystem_cex :
    (runEvents initialState
        [EmeEvent.manifestParsed [{ audioCodec := "mp4a.40.2", videoCodec := "avc1.4d401f" }],
         EmeEvent.accessObtained 0,
         EmeEvent.manifestParsed [{ audioCodec := "mp4a.40.2", videoCodec := "avc1.4d401f" }],
         EmeEvent.accessObtained 1]).appendLog
      = [KeySystems.WIDEVINE, KeySystems.WIDEVINE] ∧
    (runEvents initialState
        [EmeEvent.manifestParsed [{ audioCodec := "mp4a.40.2", videoCodec := "avc1.4d401f" }],
         EmeEvent.accessObtained 0,
         EmeEvent.manifestParsed [{ audioCodec := "mp4a.40.2", videoCodec := "avc1.4d401f" }],
         EmeEvent.accessObtained 1])._mediaKeysList.length = 2 := by
  refine ⟨by decide, by decide⟩
